import Mathlib

/-!
Shallow embedding of the trevanquant scheduling and synchronization pipeline
(`src/trevanquant`), covering the task scheduler (`scheduler/task_scheduler.py`),
the database CRUD layer (`database/crud.py`, `database/models.py`), and the
spec-level contracts of the sync orchestrator and indicator engine.
Python dictionaries become structures, SQLAlchemy tables become lists of rows,
exceptions become `Except String`, and the global `schedule` registry becomes
an explicit list of (trigger, action) pairs.
-/

namespace TrevanQuant

/-! ## Trading calendar (`TaskScheduler._is_trading_day`) -/

/-- Embedding of `TaskScheduler._is_trading_day`. The argument models the
fallible computation of the current weekday (Python convention from
`date.weekday()`: 0 = Monday .. 6 = Sunday). The try/except in the source
returns `False` on any internal error; otherwise the body returns `False`
exactly when `weekday >= 5`. -/
def is_trading_day (today : Except String Nat) : Bool :=
  match today with
  | Except.error _ => false
  | Except.ok w => if w ≥ 5 then false else true

/-! ## Stock CRUD (`StockCRUD.get_active_stocks`) -/

/-- Row of the `stocks` table (`database/models.py`), restricted to the columns
`get_active_stocks` reads plus identifying metadata. -/
structure Stock where
  code : String
  name : String
  market : String
  is_st : Bool
  is_delisted : Bool
deriving DecidableEq

/-- Embedding of `StockCRUD.get_active_stocks`: filters the `stocks` table by
`is_delisted == False AND is_st == False`. -/
def get_active_stocks (stocks : List Stock) : List Stock :=
  stocks.filter (fun s => !s.is_delisted && !s.is_st)

/-! ## Scheduler trigger registry (`TaskScheduler._setup_schedules`) -/

/-- A trigger of the `schedule` library as used by `_setup_schedules`:
a weekly weekday+time trigger (`schedule.every().monday.at(..)`), a daily
time trigger (`schedule.every().day.at(..)`), or a fixed-interval trigger
(`schedule.every(n).minutes`). Weekdays: 0 = Monday .. 6 = Sunday. -/
inductive Trigger where
  | weeklyAt (weekday : Nat) (hour : Nat) (minute : Nat)
  | dailyAt (hour : Nat) (minute : Nat)
  | everyMinutes (n : Nat)
deriving DecidableEq

/-- Embedding of `TaskScheduler._setup_schedules`, line by line: each
`schedule.every()....do(task)` call contributes one (trigger, action) pair, in
source order; the hourly indicator loop is `for hour in range(9, 16)`. -/
def setup_schedules : List (Trigger × String) :=
  [(Trigger.weeklyAt 0 15 30, "daily_data_sync"),
   (Trigger.weeklyAt 1 15 30, "daily_data_sync"),
   (Trigger.weeklyAt 2 15 30, "daily_data_sync"),
   (Trigger.weeklyAt 3 15 30, "daily_data_sync"),
   (Trigger.weeklyAt 4 15 30, "daily_data_sync"),
   (Trigger.weeklyAt 0 16 0, "daily_report"),
   (Trigger.weeklyAt 1 16 0, "daily_report"),
   (Trigger.weeklyAt 2 16 0, "daily_report"),
   (Trigger.weeklyAt 3 16 0, "daily_report"),
   (Trigger.weeklyAt 4 16 0, "daily_report"),
   (Trigger.weeklyAt 6 20 0, "stock_list_update")]
  ++ (List.range' 9 7).map (fun h => (Trigger.dailyAt h 0, "technical_indicators"))
  ++ [(Trigger.dailyAt 2 0, "data_cleanup"),
      (Trigger.everyMinutes 30, "health_check")]

/-- The fixed trigger table of spec section 4.5, transcribed row by row from
the words of the spec (not from the source): daily data sync Monday to Friday
at 15:30; daily report Monday to Friday at 16:00; stock list update Sunday at
20:00; technical indicator sync every hour on the hour 09:00 through 15:00
daily; data cleanup daily at 02:00; health check every 30 minutes. -/
def spec_trigger_table : List (Trigger × String) :=
  [(Trigger.weeklyAt 0 15 30, "daily_data_sync"),
   (Trigger.weeklyAt 1 15 30, "daily_data_sync"),
   (Trigger.weeklyAt 2 15 30, "daily_data_sync"),
   (Trigger.weeklyAt 3 15 30, "daily_data_sync"),
   (Trigger.weeklyAt 4 15 30, "daily_data_sync"),
   (Trigger.weeklyAt 0 16 0, "daily_report"),
   (Trigger.weeklyAt 1 16 0, "daily_report"),
   (Trigger.weeklyAt 2 16 0, "daily_report"),
   (Trigger.weeklyAt 3 16 0, "daily_report"),
   (Trigger.weeklyAt 4 16 0, "daily_report"),
   (Trigger.weeklyAt 6 20 0, "stock_list_update"),
   (Trigger.dailyAt 9 0, "technical_indicators"),
   (Trigger.dailyAt 10 0, "technical_indicators"),
   (Trigger.dailyAt 11 0, "technical_indicators"),
   (Trigger.dailyAt 12 0, "technical_indicators"),
   (Trigger.dailyAt 13 0, "technical_indicators"),
   (Trigger.dailyAt 14 0, "technical_indicators"),
   (Trigger.dailyAt 15 0, "technical_indicators"),
   (Trigger.dailyAt 2 0, "data_cleanup"),
   (Trigger.everyMinutes 30, "health_check")]

/-! ## Scheduler lifecycle and job registry (`start`, `stop`) -/

/-- State of the scheduler process: the process-global registry of the
`schedule` module (which `_setup_schedules` appends to and which nothing in
the source ever clears) plus the `running` flag of the `TaskScheduler`
instance. -/
structure SchedState where
  registry : List (Trigger × String)
  running : Bool
deriving DecidableEq

/-- A fresh process: empty global registry, scheduler stopped. -/
def init_state : SchedState :=
  { registry := [], running := false }

/-- Operations on a scheduler instance: `start()`, `stop()`, and one iteration
of the dispatch loop (which runs pending jobs but never mutates the job
registry). -/
inductive SchedOp where
  | start
  | stop
  | loopTick
deriving DecidableEq

/-- Embedding of `TaskScheduler.start`: a no-op when already running,
otherwise sets `running` and calls `_setup_schedules`, which appends the whole
job set to the global registry. -/
def sched_start (s : SchedState) : SchedState :=
  if s.running then s
  else { registry := s.registry ++ setup_schedules, running := true }

/-- Embedding of `TaskScheduler.stop`: clears the `running` flag (a no-op when
already stopped); the job registry is left untouched. -/
def sched_stop (s : SchedState) : SchedState :=
  if s.running then { s with running := false } else s

/-- One scheduler-instance step. -/
def sched_step (s : SchedState) : SchedOp → SchedState
  | SchedOp.start => sched_start s
  | SchedOp.stop => sched_stop s
  | SchedOp.loopTick => s

/-- A sequence of operations applied to a state. -/
def sched_run (s : SchedState) (ops : List SchedOp) : SchedState :=
  ops.foldl sched_step s

/-! ## Dispatch loop (`TaskScheduler._run_scheduler`) -/

/-- One observed iteration of the dispatch loop: either a normal tick
(`schedule.run_pending(); time.sleep(1)`) or a caught fault (`except
Exception: log; time.sleep(5)`). -/
inductive TickEvent where
  | ticked (t : Nat)
  | faulted (t : Nat) (e : String)
deriving DecidableEq

/-- The tick index at which an event happened. -/
def tickTime : TickEvent → Nat
  | TickEvent.ticked t => t
  | TickEvent.faulted t _ => t

/-- Embedding of `TaskScheduler._run_scheduler`: `while self.running:` checks
and fires triggers each tick inside a try/except, so a raising tick produces a
logged fault event and the loop moves to the next tick; the loop body is left
only when `running` is false. `running` gives the flag value at each tick
(set externally by `stop()`), `tick` gives the outcome of
`schedule.run_pending()` at each tick, `t` is the first tick index and `fuel`
bounds the observation window. -/
def run_scheduler (running : Nat → Bool) (tick : Nat → Except String Unit) :
    Nat → Nat → List TickEvent
  | _, 0 => []
  | t, n + 1 =>
    if running t then
      (match tick t with
       | Except.ok _ => TickEvent.ticked t
       | Except.error e => TickEvent.faulted t e) :: run_scheduler running tick (t + 1) n
    else []

/-! ## Trading-day-gated job bodies -/

/-- The success-flag part of the dictionary returned by the sync orchestrator
and the report generator. -/
structure SyncResult where
  success : Bool
deriving DecidableEq

/-- Embedding of `TaskScheduler._daily_data_sync_task` over an abstract store
state `σ`: consult the trading calendar first and return with an empty
invocation trace on a non-trading day; otherwise invoke
`data_sync_manager.full_sync()` inside a try/except (both the success and the
failure branch only log). The second component of the result lists the
orchestrator operations that were invoked. -/
def daily_data_sync_task (σ : Type) (trading : Bool)
    (fullSyncOp : σ → σ × Except String SyncResult) (store : σ) : σ × List String :=
  if !trading then (store, [])
  else
    match fullSyncOp store with
    | (store', Except.ok _) => (store', ["full_sync"])
    | (store', Except.error _) => (store', ["full_sync"])

/-- Embedding of `TaskScheduler._daily_report_task`: like the data sync task
but invoking `report_generator.send_daily_report()`. -/
def daily_report_task (σ : Type) (trading : Bool)
    (sendReportOp : σ → σ × Except String SyncResult) (store : σ) : σ × List String :=
  if !trading then (store, [])
  else
    match sendReportOp store with
    | (store', Except.ok _) => (store', ["send_daily_report"])
    | (store', Except.error _) => (store', ["send_daily_report"])

/-- Embedding of `TaskScheduler._technical_indicators_task`: like the data
sync task but invoking `data_sync_manager.sync_technical_indicators(days_back=5)`. -/
def technical_indicators_task (σ : Type) (trading : Bool)
    (syncIndicatorsOp : Nat → σ → σ × Except String SyncResult) (store : σ) :
    σ × List String :=
  if !trading then (store, [])
  else
    match syncIndicatorsOp 5 store with
    | (store', Except.ok _) => (store', ["sync_technical_indicators"])
    | (store', Except.error _) => (store', ["sync_technical_indicators"])

/-! ## Health check and manual task invocation (`run_task_now`) -/

/-- Embedding of `TaskScheduler._health_check_task`. The whole body sits in
one `try/except Exception` that logs and returns, so the task raises nothing:
a failing store access (`session.execute("SELECT 1")`, modelled by the
argument) is caught, logged and swallowed, and so are the later config and
disk checks (which only write warnings). -/
def health_check_task (storeCheck : Except String Unit) : Except String Unit :=
  match storeCheck with
  | Except.error _ => Except.ok ()
  | Except.ok _ => Except.ok ()

/-- Behaviour of the environment a `run_task_now` call runs against: the
outcome of a store access plus the outcomes of the other five task bodies
(each an `Except.error` when the body would raise). -/
structure TaskEnv where
  storeCheck : Except String Unit
  daily_data_sync : Except String Unit
  daily_report : Except String Unit
  stock_list_update : Except String Unit
  technical_indicators : Except String Unit
  data_cleanup : Except String Unit

/-- The `task_map` dictionary built inside `run_task_now`, keyed by the six
fixed task names. -/
def task_map (env : TaskEnv) (name : String) : Option (Except String Unit) :=
  if name = "daily_data_sync" then some env.daily_data_sync
  else if name = "daily_report" then some env.daily_report
  else if name = "stock_list_update" then some env.stock_list_update
  else if name = "technical_indicators" then some env.technical_indicators
  else if name = "data_cleanup" then some env.data_cleanup
  else if name = "health_check" then some (health_check_task env.storeCheck)
  else none

/-- The dictionary returned by `run_task_now`. -/
structure TaskResult where
  success : Bool
  message : Option String
  error : Option String
deriving DecidableEq

/-- Embedding of `TaskScheduler.run_task_now`: unknown names yield a
structured failure; otherwise the task body is executed and a raising body is
caught by the surrounding try/except and converted to `{success: False,
error: str(e)}`, while a returning body yields `{success: True, message}`. -/
def run_task_now (env : TaskEnv) (task_name : String) : TaskResult :=
  match task_map env task_name with
  | none => { success := false, message := none, error := some ("未知任务: " ++ task_name) }
  | some (Except.ok _) =>
      { success := true, message := some ("任务 " ++ task_name ++ " 执行完成"), error := none }
  | some (Except.error e) => { success := false, message := none, error := some e }

/-! ## Daily-bar upsert (`DailyDataCRUD.batch_upsert`) -/

/-- A daily-bar record as passed to `batch_upsert`: the columns of the
`daily_data` table written by the sync orchestrator. Prices and volumes are
modelled as exact rationals, the trade date as a day number. -/
structure BarData where
  stock_code : String
  trade_date : Int
  open_price : ℚ
  high_price : ℚ
  low_price : ℚ
  close_price : ℚ
  volume : ℚ
  amount : Option ℚ
deriving DecidableEq

/-- The natural key of a record: the `UniqueConstraint('stock_code',
'trade_date')` named `uq_stock_date` in `database/models.py`. -/
def barKey (d : BarData) : String × Int :=
  (d.stock_code, d.trade_date)

/-- A stored row of `daily_data`: surrogate autoincrement id plus payload
(`created_at` is never revisited by the upsert path and is omitted). -/
structure DailyRow where
  id : Nat
  data : BarData
deriving DecidableEq

/-- The natural key held by a stored row. -/
def rowKey (r : DailyRow) : String × Int :=
  barKey r.data

/-- The `daily_data` table: stored rows plus the next autoincrement id. -/
structure DailyTable where
  rows : List DailyRow
  nextId : Nat
deriving DecidableEq

/-- Embedding of `DailyDataCRUD.get_by_stock_and_date`: the first stored row
whose `stock_code` and `trade_date` both match (`.filter(and_(..)).first()`). -/
def get_by_stock_and_date (rows : List DailyRow) (code : String) (dt : Int) :
    Option DailyRow :=
  rows.find? (fun r => decide (r.data.stock_code = code) && decide (r.data.trade_date = dt))

/-- First row carrying a given natural key. -/
def lookupKey (k : String × Int) (rows : List DailyRow) : Option DailyRow :=
  rows.find? (fun r => decide (rowKey r = k))

/-- Embedding of `BaseCRUD.update` applied to the first row whose key matches
the incoming record `d`: every field of the incoming dictionary exists on the
model and is assigned, so the payload of that row becomes `d`; the row id is
untouched and `DailyData` has no `updated_at` column, so nothing else
changes. -/
def updateFirst (d : BarData) : List DailyRow → List DailyRow
  | [] => []
  | r :: rs =>
    if rowKey r = barKey d then { r with data := d } :: rs
    else r :: updateFirst d rs

/-- One iteration of the `batch_upsert` loop: existence check by the natural
key via `get_by_stock_and_date`, then either update-in-place of the found row
or insert of a fresh row, which receives the next autoincrement id
(`BaseCRUD.create`). -/
def upsert_one (t : DailyTable) (d : BarData) : DailyTable :=
  match get_by_stock_and_date t.rows d.stock_code d.trade_date with
  | some _ => { rows := updateFirst d t.rows, nextId := t.nextId }
  | none => { rows := t.rows ++ [{ id := t.nextId, data := d }], nextId := t.nextId + 1 }

/-- Embedding of `DailyDataCRUD.batch_upsert`: the upsert loop over the
incoming records, in order. The list of ORM objects the source returns is
dropped; the claims concern the stored table. -/
def batch_upsert (t : DailyTable) (l : List BarData) : DailyTable :=
  l.foldl upsert_one t

/-- Key-uniqueness of the stored table: no two rows share the natural key.
This is the invariant backed by the schema constraint `uq_stock_date`. -/
def KeysUnique (rows : List DailyRow) : Prop :=
  (rows.map rowKey).Nodup

/-- Boolean presence of a natural key in the stored table. -/
def containsKey (k : String × Int) (rows : List DailyRow) : Bool :=
  rows.any (fun r => decide (rowKey r = k))

/-- Positional agreement of two tables up to the payloads of keys in `K`:
same length, ids and keys position by position, and equal rows at every
position whose key is outside `K`. Used to propagate the effect of replayed
updates through the upsert loop. -/
def AgreeExcept (K : List (String × Int)) (rows rows' : List DailyRow) : Prop :=
  List.Forall₂
    (fun r r' => r.id = r'.id ∧ rowKey r = rowKey r' ∧ (rowKey r ∉ K → r = r'))
    rows rows'

/-! ## Sync orchestrator (spec section 4.4) -/

/-- Structured outcome of one sync stage: success flag, records written and
error detail, as in the SyncResult shape of the spec data model. -/
structure StageOutcome where
  success : Bool
  records : Nat
  error : Option String
deriving DecidableEq

/-- Modelled from the spec: the sync orchestrator source (`data/sync.py`,
class behind `data_sync_manager`) is not among the provided source files.
Per spec section 4.4, every orchestrator operation converts an internal
failure into a structured `{success: false, error}` outcome instead of letting
the exception cross its boundary. -/
def stage_outcome : Except String Nat → StageOutcome
  | Except.ok n => { success := true, records := n, error := none }
  | Except.error e => { success := false, records := 0, error := some e }

/-- Modelled from the spec: one independently guarded stage of `full_sync`.
The stage body is a store transformer that may fail; running it appends the
stage name to the invocation trace and converts its outcome. -/
def run_stage (σ : Type) (name : String) (stage : σ → σ × Except String Nat)
    (st : σ × List String) : (σ × List String) × StageOutcome :=
  (((stage st.1).1, st.2 ++ [name]), stage_outcome (stage st.1).2)

/-- Modelled from the spec (section 4.4, `full_sync()` of the absent
`data/sync.py`): runs stock-list sync, then daily-data sync, then indicator
sync, strictly in that order, each guarded independently so that an earlier
failure does not block later stages; returns the final store, the invocation
trace, and one independent outcome per stage. -/
def full_sync (σ : Type)
    (stockListOp dailyDataOp indicatorsOp : σ → σ × Except String Nat)
    (store : σ) : (σ × List String) × (StageOutcome × StageOutcome × StageOutcome) :=
  let s1 := run_stage σ "sync_stock_list" stockListOp (store, [])
  let s2 := run_stage σ "sync_daily_data" dailyDataOp s1.1
  let s3 := run_stage σ "sync_technical_indicators" indicatorsOp s2.1
  (s3.1, (s1.2, s2.2, s3.2))

/-! ## Indicator engine: Moving Average (spec section 4.2) -/

/-- Modelled from the spec: arithmetic mean of the trailing `period` close
prices ending at index `i` (the bars at indices `i + 1 - period` through `i`).
Close prices are modelled as exact rationals. -/
def trailing_mean (period : Nat) (closes : List ℚ) (i : Nat) : ℚ :=
  (((closes.drop (i + 1 - period)).take period).sum) / (period : ℚ)

/-- Modelled from the spec: the indicator engine source (`data/indicators.py`)
is not among the provided source files. Per spec section 4.2, Moving
Average(period) over an ordered close series emits no point for the first
`period - 1` bars and one point per bar from index `period - 1` on, each the
arithmetic mean of the trailing `period` closes. Points are returned as
(index, value) pairs aligned to the input series. -/
def moving_average (period : Nat) (closes : List ℚ) : List (Nat × ℚ) :=
  (List.range closes.length).filterMap (fun i =>
    if period ≤ i + 1 then some (i, trailing_mean period closes i) else none)

end TrevanQuant

/-! ## Theorems -/

namespace TrevanQuant

/-- The existence check of the source matches lookup by the natural key. -/
theorem get_by_stock_and_date_eq_lookupKey (d : BarData) (rows : List DailyRow) :
    get_by_stock_and_date rows d.stock_code d.trade_date = lookupKey (barKey d) rows := by
  unfold get_by_stock_and_date lookupKey
  congr 1
  funext r
  by_cases h1 : r.data.stock_code = d.stock_code <;>
    by_cases h2 : r.data.trade_date = d.trade_date <;>
      simp [rowKey, barKey, Prod.ext_iff, h1, h2]

/-- Presence of a key is membership in the key column. -/
theorem containsKey_iff (k : String × Int) (rows : List DailyRow) :
    containsKey k rows = true ↔ k ∈ rows.map rowKey := by
  simp only [containsKey, List.any_eq_true, decide_eq_true_eq, List.mem_map]

/-- When the key is present, `upsert_one` updates in place and keeps the
autoincrement counter. -/
theorem upsert_one_present (t : DailyTable) (d : BarData)
    (h : containsKey (barKey d) t.rows = true) :
    upsert_one t d = { rows := updateFirst d t.rows, nextId := t.nextId } := by
  unfold upsert_one
  rw [get_by_stock_and_date_eq_lookupKey]
  cases hfind : lookupKey (barKey d) t.rows with
  | some r => rfl
  | none =>
    exfalso
    rw [lookupKey, List.find?_eq_none] at hfind
    rw [containsKey, List.any_eq_true] at h
    obtain ⟨r, hr, hrk⟩ := h
    exact hfind r hr hrk

/-- When the key is absent, `upsert_one` appends a fresh row and advances the
autoincrement counter. -/
theorem upsert_one_absent (t : DailyTable) (d : BarData)
    (h : containsKey (barKey d) t.rows = false) :
    upsert_one t d =
      { rows := t.rows ++ [{ id := t.nextId, data := d }], nextId := t.nextId + 1 } := by
  unfold upsert_one
  rw [get_by_stock_and_date_eq_lookupKey]
  cases hfind : lookupKey (barKey d) t.rows with
  | none => rfl
  | some r =>
    exfalso
    have hmem := List.find?_some hfind
    have hr : r ∈ t.rows := List.mem_of_find?_eq_some hfind
    rw [containsKey] at h
    have : t.rows.any (fun r => decide (rowKey r = barKey d)) = true :=
      List.any_eq_true.mpr ⟨r, hr, hmem⟩
    rw [h] at this
    cases this

/-- Update-in-place never changes the key column of the table. -/
theorem map_rowKey_updateFirst (d : BarData) (rows : List DailyRow) :
    (updateFirst d rows).map rowKey = rows.map rowKey := by
  induction rows with
  | nil => rfl
  | cons r rs ih =>
    by_cases h : rowKey r = barKey d
    · simp only [updateFirst, if_pos h, List.map_cons]
      have : rowKey { r with data := d } = rowKey r := by
        rw [h]; rfl
      rw [this]
    · simp only [updateFirst, if_neg h, List.map_cons, ih]

/-- One upsert preserves key-uniqueness of the table. -/
theorem keysUnique_upsert_one (t : DailyTable) (d : BarData)
    (h : KeysUnique t.rows) : KeysUnique (upsert_one t d).rows := by
  by_cases hc : containsKey (barKey d) t.rows = true
  · rw [upsert_one_present t d hc]
    unfold KeysUnique
    rw [map_rowKey_updateFirst]
    exact h
  · have hc' : containsKey (barKey d) t.rows = false := by
      simpa using hc
    rw [upsert_one_absent t d hc']
    unfold KeysUnique
    rw [List.map_append]
    have hnot : barKey d ∉ t.rows.map rowKey := fun hmem =>
      hc ((containsKey_iff _ _).mpr hmem)
    simp only [List.map_cons, List.map_nil]
    have : rowKey { id := t.nextId, data := d } = barKey d := rfl
    rw [this]
    simpa [List.nodup_append] using
      ⟨h, fun x hx hk => hnot (List.mem_map.mpr ⟨x, hx, hk⟩)⟩

/-- `batch_upsert` preserves key-uniqueness: after any upsert call on a table
satisfying the schema constraint, no two rows share a natural key. -/
theorem keysUnique_batch (t : DailyTable) (l : List BarData)
    (h : KeysUnique t.rows) : KeysUnique (batch_upsert t l).rows := by
  induction l generalizing t with
  | nil => exact h
  | cons d l' ih =>
    rw [batch_upsert, List.foldl_cons]
    exact ih (upsert_one t d) (keysUnique_upsert_one t d h)

/-- One upsert never removes a key from the table. -/
theorem containsKey_upsert_one (k : String × Int) (t : DailyTable) (d : BarData)
    (h : containsKey k t.rows = true) : containsKey k (upsert_one t d).rows = true := by
  by_cases hc : containsKey (barKey d) t.rows = true
  · rw [upsert_one_present t d hc, containsKey_iff]
    rw [map_rowKey_updateFirst]
    exact (containsKey_iff _ _).mp h
  · have hc' : containsKey (barKey d) t.rows = false := by simpa using hc
    rw [upsert_one_absent t d hc', containsKey_iff, List.map_append]
    exact List.mem_append_left _ ((containsKey_iff _ _).mp h)

/-- After upserting a record its key is present. -/
theorem containsKey_self_upsert_one (t : DailyTable) (d : BarData) :
    containsKey (barKey d) (upsert_one t d).rows = true := by
  by_cases hc : containsKey (barKey d) t.rows = true
  · rw [upsert_one_present t d hc, containsKey_iff, map_rowKey_updateFirst]
    exact (containsKey_iff _ _).mp hc
  · have hc' : containsKey (barKey d) t.rows = false := by simpa using hc
    rw [upsert_one_absent t d hc', containsKey_iff, List.map_append]
    exact List.mem_append_right _ (List.mem_singleton.mpr rfl)

/-- A whole batch never removes a key from the table. -/
theorem containsKey_batch (k : String × Int) (t : DailyTable) (l : List BarData)
    (h : containsKey k t.rows = true) : containsKey k (batch_upsert t l).rows = true := by
  induction l generalizing t with
  | nil => exact h
  | cons d l' ih =>
    rw [batch_upsert, List.foldl_cons]
    exact ih (upsert_one t d) (containsKey_upsert_one k t d h)

/-- Every record of the batch has its key present in the resulting table. -/
theorem mem_containsKey_batch (t : DailyTable) (l : List BarData) :
    ∀ d ∈ l, containsKey (barKey d) (batch_upsert t l).rows = true := by
  induction l generalizing t with
  | nil => intro d hd; cases hd
  | cons e l' ih =>
    intro d hd
    rw [batch_upsert, List.foldl_cons]
    rcases List.mem_cons.mp hd with rfl | hd'
    · exact containsKey_batch _ _ _ (containsKey_self_upsert_one t d)
    · exact ih (upsert_one t e) d hd'

/-- Updating in place at one key leaves lookup at any other key unchanged. -/
theorem lookupKey_updateFirst_ne (k : String × Int) (d : BarData)
    (rows : List DailyRow) (hne : k ≠ barKey d) :
    lookupKey k (updateFirst d rows) = lookupKey k rows := by
  induction rows with
  | nil => rfl
  | cons r rs ih =>
    by_cases h : rowKey r = barKey d
    · simp only [updateFirst, if_pos h, lookupKey]
      have hd1 : ¬ ((fun r => decide (rowKey r = k)) { r with data := d } = true) := by
        simp only [decide_eq_true_eq]
        intro hx
        exact hne (hx.symm.trans rfl)
      have hd2 : ¬ ((fun r => decide (rowKey r = k)) r = true) := by
        simp only [decide_eq_true_eq]
        intro hx
        exact hne (hx.symm.trans h)
      rw [List.find?_cons_of_neg (p := fun r => decide (rowKey r = k)) _ hd1,
        List.find?_cons_of_neg (p := fun r => decide (rowKey r = k)) _ hd2]
    · simp only [updateFirst, if_neg h, lookupKey]
      by_cases hp : rowKey r = k
      · rw [List.find?_cons_of_pos _ (by simpa using hp),
          List.find?_cons_of_pos _ (by simpa using hp)]
      · rw [List.find?_cons_of_neg _ (by simpa using hp),
          List.find?_cons_of_neg _ (by simpa using hp)]
        exact ih

/-- Appending a row with a different key leaves lookup unchanged. -/
theorem lookupKey_append_ne (k : String × Int) (d : BarData) (n : Nat)
    (rows : List DailyRow) (hne : k ≠ barKey d) :
    lookupKey k (rows ++ [{ id := n, data := d }]) = lookupKey k rows := by
  rw [lookupKey, List.find?_append]
  have : lookupKey k [{ id := n, data := d }] = none := by
    rw [lookupKey, List.find?_cons_of_neg _ (by simpa using fun hx => hne hx.symm)]
    rfl
  rw [lookupKey] at this ⊢
  rw [this, Option.or_none]

/-- One upsert of a record with a different key leaves lookup unchanged. -/
theorem lookupKey_upsert_one_ne (k : String × Int) (t : DailyTable) (d : BarData)
    (hne : k ≠ barKey d) :
    lookupKey k (upsert_one t d).rows = lookupKey k t.rows := by
  by_cases hc : containsKey (barKey d) t.rows = true
  · rw [upsert_one_present t d hc]
    exact lookupKey_updateFirst_ne k d t.rows hne
  · have hc' : containsKey (barKey d) t.rows = false := by simpa using hc
    rw [upsert_one_absent t d hc']
    exact lookupKey_append_ne k d t.nextId t.rows hne

/-- A batch that never touches key `k` leaves lookup at `k` unchanged. -/
theorem lookupKey_batch_not_mem (k : String × Int) (t : DailyTable)
    (l : List BarData) (hk : k ∉ l.map barKey) :
    lookupKey k (batch_upsert t l).rows = lookupKey k t.rows := by
  induction l generalizing t with
  | nil => rfl
  | cons d l' ih =>
    rw [List.map_cons, List.mem_cons] at hk
    push_neg at hk
    rw [batch_upsert, List.foldl_cons]
    have := ih (upsert_one t d) hk.2
    rw [batch_upsert] at this
    rw [this]
    exact lookupKey_upsert_one_ne k t d hk.1

/-- After an in-place update the looked-up row carries the new payload. -/
theorem lookupKey_updateFirst_self (d : BarData) (rows : List DailyRow)
    (h : containsKey (barKey d) rows = true) :
    ∃ r, lookupKey (barKey d) (updateFirst d rows) = some r ∧ r.data = d := by
  induction rows with
  | nil => cases h
  | cons r rs ih =>
    by_cases hk : rowKey r = barKey d
    · refine ⟨{ r with data := d }, ?_, rfl⟩
      simp only [updateFirst, if_pos hk, lookupKey]
      exact List.find?_cons_of_pos _ (by simp [rowKey])
    · simp only [updateFirst, if_neg hk, lookupKey]
      rw [List.find?_cons_of_neg _ (by simpa using hk)]
      have hmem : containsKey (barKey d) rs = true := by
        unfold containsKey at h ⊢
        simpa [List.any_cons, hk] using h
      exact ih hmem

/-- After an absent-key insert the looked-up row is the fresh row. -/
theorem lookupKey_append_absent (d : BarData) (n : Nat) (rows : List DailyRow)
    (h : containsKey (barKey d) rows = false) :
    lookupKey (barKey d) (rows ++ [{ id := n, data := d }]) =
      some { id := n, data := d } := by
  rw [lookupKey, List.find?_append]
  have h1 : rows.find? (fun r => decide (rowKey r = barKey d)) = none := by
    rw [List.find?_eq_none]
    intro x hx hp
    have : containsKey (barKey d) rows = true :=
      List.any_eq_true.mpr ⟨x, hx, hp⟩
    rw [h] at this
    cases this
  rw [h1, Option.none_or]
  exact List.find?_cons_of_pos _ (by simp [rowKey])

/-- After `upsert_one`, lookup at the upserted key finds a row whose payload
is the incoming record. -/
theorem lookupKey_upsert_one_self (t : DailyTable) (d : BarData) :
    ∃ r, lookupKey (barKey d) (upsert_one t d).rows = some r ∧ r.data = d := by
  by_cases hc : containsKey (barKey d) t.rows = true
  · rw [upsert_one_present t d hc]
    exact lookupKey_updateFirst_self d t.rows hc
  · have hc' : containsKey (barKey d) t.rows = false := by simpa using hc
    rw [upsert_one_absent t d hc']
    exact ⟨{ id := t.nextId, data := d }, lookupKey_append_absent d t.nextId t.rows hc', rfl⟩

/-- Updating in place with the payload the first matching row already holds
is a no-op. -/
theorem updateFirst_eq_self (d : BarData) (rows : List DailyRow) (r : DailyRow)
    (hfind : lookupKey (barKey d) rows = some r) (hdata : r.data = d) :
    updateFirst d rows = rows := by
  induction rows with
  | nil => cases hfind
  | cons r' rs ih =>
    by_cases hk : rowKey r' = barKey d
    · rw [lookupKey, List.find?_cons_of_pos _ (by simpa using hk)] at hfind
      cases hfind
      simp only [updateFirst, if_pos hk]
      rw [← hdata]
    · rw [lookupKey, List.find?_cons_of_neg _ (by simpa using hk)] at hfind
      simp only [updateFirst, if_neg hk]
      rw [ih hfind]

/-- Agreement is reflexive. -/
theorem agreeExcept_refl (K : List (String × Int)) (rows : List DailyRow) :
    AgreeExcept K rows rows := by
  unfold AgreeExcept
  exact List.forall₂_same.mpr (fun x _ => ⟨rfl, rfl, fun _ => rfl⟩)

/-- Agreement with no excepted keys is equality. -/
theorem agreeExcept_nil_eq (rows rows' : List DailyRow)
    (h : AgreeExcept [] rows rows') : rows = rows' := by
  unfold AgreeExcept at h
  induction h with
  | nil => rfl
  | cons h₁ h₂ ih =>
    obtain ⟨-, -, heq⟩ := h₁
    rw [heq (List.not_mem_nil _), ih]

/-- Agreeing tables have the same key column. -/
theorem agreeExcept_map_rowKey (K : List (String × Int)) (rows rows' : List DailyRow)
    (h : AgreeExcept K rows rows') : rows.map rowKey = rows'.map rowKey := by
  unfold AgreeExcept at h
  induction h with
  | nil => rfl
  | cons h₁ h₂ ih => simp [List.map_cons, h₁.2.1, ih]

/-- An excepted key carried by no row can be dropped. -/
theorem agreeExcept_shrink (k : String × Int) (K : List (String × Int)) :
    ∀ (rows rows' : List DailyRow), AgreeExcept (k :: K) rows rows' →
      (∀ r ∈ rows, rowKey r ≠ k) → AgreeExcept K rows rows' := by
  intro rows
  induction rows with
  | nil =>
    intro rows' h _
    unfold AgreeExcept at h ⊢
    cases h
    exact List.Forall₂.nil
  | cons a as ih =>
    intro rows' h hnk
    unfold AgreeExcept at h ⊢
    obtain ⟨b, bs, h₁, h₂, rfl⟩ := List.forall₂_cons_left_iff.mp h
    obtain ⟨hid, hkey, heq⟩ := h₁
    refine List.Forall₂.cons ⟨hid, hkey, fun hK => heq ?_⟩
      (ih bs h₂ (fun r hr => hnk r (List.mem_cons_of_mem _ hr)))
    rw [List.mem_cons]
    push_neg
    exact ⟨hnk a (List.mem_cons_self _ _), hK⟩

/-- Updating in place at a key excepted by `K` produces a table agreeing with
the original up to `K`. -/
theorem agreeExcept_updateFirst_left (K : List (String × Int)) (d : BarData)
    (rows : List DailyRow) (hmem : barKey d ∈ K) :
    AgreeExcept K (updateFirst d rows) rows := by
  induction rows with
  | nil => exact List.Forall₂.nil
  | cons r rs ih =>
    by_cases hk : rowKey r = barKey d
    · simp only [updateFirst, if_pos hk]
      exact List.Forall₂.cons ⟨rfl, hk.symm, fun hK => absurd hmem hK⟩ (agreeExcept_refl K rs)
    · simp only [updateFirst, if_neg hk]
      exact List.Forall₂.cons ⟨rfl, rfl, fun _ => rfl⟩ ih

/-- Update-in-place is a congruence for agreement: replaying the same update
on two tables that agree up to the updated key and later keys yields tables
agreeing up to the later keys. Needs key-uniqueness of the left table so that
the updated key occurs at one position only. -/
theorem agreeExcept_updateFirst (K : List (String × Int)) (d : BarData) :
    ∀ (rows rows' : List DailyRow), AgreeExcept (barKey d :: K) rows rows' →
      (rows.map rowKey).Nodup →
      AgreeExcept K (updateFirst d rows) (updateFirst d rows') := by
  intro rows
  induction rows with
  | nil =>
    intro rows' h _
    unfold AgreeExcept at h ⊢
    cases h
    exact List.Forall₂.nil
  | cons a as ih =>
    intro rows' h hu
    unfold AgreeExcept at h ⊢
    obtain ⟨b, bs, h₁, h₂, rfl⟩ := List.forall₂_cons_left_iff.mp h
    obtain ⟨hid, hkey, heq⟩ := h₁
    simp only [List.map_cons, List.nodup_cons] at hu
    by_cases hk : rowKey a = barKey d
    · have hk' : rowKey b = barKey d := hkey.symm.trans hk
      simp only [updateFirst, if_pos hk, if_pos hk']
      refine List.Forall₂.cons ⟨hid, rfl, fun _ => by rw [hid]⟩ ?_
      have hnotin : ∀ r ∈ as, rowKey r ≠ barKey d := by
        intro r hr hrk
        exact hu.1 (hk ▸ (hrk ▸ List.mem_map.mpr ⟨r, hr, rfl⟩))
      exact agreeExcept_shrink (barKey d) K as bs h₂ hnotin
    · have hk' : ¬ rowKey b = barKey d := fun hb => hk (hkey.trans hb)
      simp only [updateFirst, if_neg hk, if_neg hk']
      refine List.Forall₂.cons ⟨hid, hkey, fun hK => heq ?_⟩ (ih bs h₂ hu.2)
      rw [List.mem_cons]
      push_neg
      exact ⟨hk, hK⟩

/-- Replaying a batch on two agreeing tables (agreeing up to the keys of the
batch, with those keys all present) yields equal tables. -/
theorem batch_congr : ∀ (l : List BarData) (t t' : DailyTable),
    (∀ d ∈ l, containsKey (barKey d) t.rows = true) →
    t.nextId = t'.nextId →
    KeysUnique t.rows →
    AgreeExcept (l.map barKey) t.rows t'.rows →
    batch_upsert t l = batch_upsert t' l := by
  intro l
  induction l with
  | nil =>
    intro t t' _ hnid _ hag
    have hrows : t.rows = t'.rows := agreeExcept_nil_eq _ _ hag
    show t = t'
    cases t
    cases t'
    simp only at hrows hnid
    simp [hrows, hnid]
  | cons d l' ih =>
    intro t t' hpres hnid huniq hag
    have hd : containsKey (barKey d) t.rows = true := hpres d (List.mem_cons_self _ _)
    have hmapeq : t.rows.map rowKey = t'.rows.map rowKey :=
      agreeExcept_map_rowKey _ _ _ hag
    have hd' : containsKey (barKey d) t'.rows = true := by
      rw [containsKey_iff] at hd ⊢
      rw [← hmapeq]
      exact hd
    show batch_upsert (upsert_one t d) l' = batch_upsert (upsert_one t' d) l'
    refine ih (upsert_one t d) (upsert_one t' d) ?_ ?_ ?_ ?_
    · intro e he
      exact containsKey_upsert_one _ _ _ (hpres e (List.mem_cons_of_mem _ he))
    · rw [upsert_one_present t d hd, upsert_one_present t' d hd']
      simpa using hnid
    · exact keysUnique_upsert_one t d huniq
    · rw [upsert_one_present t d hd, upsert_one_present t' d hd']
      exact agreeExcept_updateFirst _ d t.rows t'.rows (by simpa using hag) huniq

/-- Replaying the same batch immediately after it ran leaves the table
unchanged. -/
theorem batch_upsert_replay : ∀ (l : List BarData) (t : DailyTable),
    KeysUnique t.rows →
    batch_upsert (batch_upsert t l) l = batch_upsert t l := by
  intro l
  induction l with
  | nil => intro t _; rfl
  | cons d l' ih =>
    intro t huniq
    have huniq1 : KeysUnique (upsert_one t d).rows := keysUnique_upsert_one t d huniq
    show batch_upsert (upsert_one (batch_upsert (upsert_one t d) l') d) l' =
      batch_upsert (upsert_one t d) l'
    set T := batch_upsert (upsert_one t d) l' with hT
    have huniqT : KeysUnique T.rows := keysUnique_batch _ _ huniq1
    have hpresd : containsKey (barKey d) T.rows = true := by
      rw [hT]
      exact containsKey_batch _ _ _ (containsKey_self_upsert_one t d)
    have hup : upsert_one T d = { rows := updateFirst d T.rows, nextId := T.nextId } :=
      upsert_one_present T d hpresd
    have hreplay : batch_upsert T l' = T := ih (upsert_one t d) huniq1
    by_cases hmem : barKey d ∈ l'.map barKey
    · have hagree : AgreeExcept (l'.map barKey) (upsert_one T d).rows T.rows := by
        rw [hup]
        exact agreeExcept_updateFirst_left _ d T.rows hmem
      have hcong : batch_upsert (upsert_one T d) l' = batch_upsert T l' := by
        refine batch_congr l' (upsert_one T d) T ?_ ?_ ?_ hagree
        · intro e he
          apply containsKey_upsert_one
          have hbase := mem_containsKey_batch (upsert_one t d) l' e he
          rw [← hT] at hbase
          exact hbase
        · rw [hup]
        · exact keysUnique_upsert_one T d huniqT
      rw [hcong, hreplay]
    · obtain ⟨r, hr, hrd⟩ := lookupKey_upsert_one_self t d
      have hrT : lookupKey (barKey d) T.rows = some r := by
        rw [hT]
        exact (lookupKey_batch_not_mem _ _ _ hmem).trans hr
      have hupd : updateFirst d T.rows = T.rows := updateFirst_eq_self d T.rows r hrT hrd
      have hupT : upsert_one T d = T := by
        rw [hup, hupd]
      rw [hupT, hreplay]

/-- C3: for every weekday of a calendar date (Python encoding, 0 = Monday ..
6 = Sunday), the trading-day check returns false exactly on Saturday (5) and
Sunday (6) and true on every other weekday, and it returns false instead of
raising when the computation of the current date fails. -/
theorem is_trading_day_weekend_policy (w : Nat) (hw : w < 7) :
    (is_trading_day (Except.ok w) = false ↔ w = 5 ∨ w = 6) ∧
    (∀ e : String, is_trading_day (Except.error e) = false) := by
  refine ⟨?_, fun e => rfl⟩
  interval_cases w <;> simp [is_trading_day]

/-- Witness for `is_trading_day_weekend_policy` at the concrete weekday 6. -/
theorem is_trading_day_weekend_policy_witness :
    6 < 7 ∧
    ((is_trading_day (Except.ok 6) = false ↔ 6 = 5 ∨ 6 = 6) ∧
     (∀ e : String, is_trading_day (Except.error e) = false)) :=
  ⟨by decide, is_trading_day_weekend_policy 6 (by decide)⟩

/-- C10: `get_active_stocks` returns exactly the stocks that are neither
delisted nor ST-flagged; in particular an ST stock is excluded from the active
universe even when it is not delisted. -/
theorem get_active_stocks_spec (stocks : List Stock) (s : Stock) :
    s ∈ get_active_stocks stocks ↔
      s ∈ stocks ∧ s.is_delisted = false ∧ s.is_st = false := by
  simp [get_active_stocks, List.mem_filter, Bool.and_eq_true, Bool.not_eq_true']

/-- C7: the job set registered by `_setup_schedules` coincides, trigger for
trigger and job for job, with the fixed trigger table of the spec: daily data
sync Monday through Friday at 15:30, daily report Monday through Friday at
16:00, stock list update Sunday at 20:00, technical indicator sync hourly
09:00 through 15:00 daily, data cleanup daily at 02:00, health check every 30
minutes — nothing more and nothing less. -/
theorem setup_schedules_matches_spec_table :
    setup_schedules = spec_trigger_table := by
  decide

/-- C2 (counterexample): with a severed store (every store access raises),
`run_task_now("health_check")` does not return `{success: false}` with a
non-empty error: the health-check body swallows the failure, so the claim is
false at this concrete input. -/
theorem run_task_now_health_check_counterexample :
    ¬ (((run_task_now ⟨Except.error "database connection refused", Except.ok (), Except.ok (),
            Except.ok (), Except.ok (), Except.ok ()⟩ "health_check").success = false) ∧
        (run_task_now ⟨Except.error "database connection refused", Except.ok (), Except.ok (),
            Except.ok (), Except.ok (), Except.ok ()⟩ "health_check").error ≠ none) := by
  decide

/-- C2 (amended): when every store access raises, `run_task_now("health_check")`
raises nothing past its boundary and returns a structured result — but the
result has `success = true` and no error, because `_health_check_task` catches
the store failure inside its own try/except and only logs it, so nothing
reaches the error-converting wrapper of `run_task_now`. -/
theorem run_task_now_health_check_store_fault (e : String)
    (b1 b2 b3 b4 b5 : Except String Unit) :
    run_task_now ⟨Except.error e, b1, b2, b3, b4, b5⟩ "health_check" =
      { success := true, message := some "任务 health_check 执行完成", error := none } := by
  rfl

/-- C5: the dispatch loop is never terminated by an exception raised while
checking or firing triggers: the sequence of ticks the loop works through is
the same for any two fault behaviours of the trigger-firing step (a raising
tick is caught and the loop proceeds to the next tick), and within the
observation window the loop body exits exactly when the `running` flag is
false at the current tick. -/
theorem scheduler_loop_fault_tolerant (running : Nat → Bool)
    (tick tick' : Nat → Except String Unit) (t fuel : Nat) :
    (run_scheduler running tick t fuel).map tickTime =
      (run_scheduler running tick' t fuel).map tickTime ∧
    (run_scheduler running tick t (fuel + 1) = [] ↔ running t = false) := by
  constructor
  · induction fuel generalizing t with
    | zero => rfl
    | succ n ih =>
      simp only [run_scheduler]
      by_cases h : running t
      · simp only [h, if_true]
        cases tick t <;> cases tick' t <;> simp [tickTime, ih]
      · simp [h]
  · by_cases h : running t <;> simp [run_scheduler, h]

/-- C6: whenever the trading-day check returns false, each of the three
trading-day-gated job bodies returns early: the store is left unchanged, no
orchestrator or report-generator operation is invoked (empty invocation
trace), and the task returns normally without signalling an error. -/
theorem trading_day_gate_skips (σ : Type)
    (fullSyncOp : σ → σ × Except String SyncResult)
    (sendReportOp : σ → σ × Except String SyncResult)
    (syncIndicatorsOp : Nat → σ → σ × Except String SyncResult) (store : σ) :
    daily_data_sync_task σ false fullSyncOp store = (store, []) ∧
    daily_report_task σ false sendReportOp store = (store, []) ∧
    technical_indicators_task σ false syncIndicatorsOp store = (store, []) :=
  ⟨rfl, rfl, rfl⟩

/-- C8 (counterexample): the state reached from a fresh process by the single
operation `start()` is reachable, yet the registered job definitions do not
have pairwise-distinct names: `_setup_schedules` registers the daily-data-sync
action under five distinct weekday triggers (and others likewise), so
job-name uniqueness fails. -/
theorem sched_job_names_not_unique :
    ¬ (((sched_run init_state [SchedOp.start]).registry.map Prod.snd).Nodup) := by
  decide

/-- C8 (amended): what does hold of the registry is that after exactly one
`start()` from a fresh process the registered (trigger, action) pairs are
pairwise distinct; job names alone are not unique, and a `stop()`/`start()`
cycle appends a second identical copy of the whole job set, because the
process-global registry is never cleared. -/
theorem sched_registry_shape :
    ((sched_run init_state [SchedOp.start]).registry).Nodup ∧
    (sched_run init_state [SchedOp.start, SchedOp.stop, SchedOp.start]).registry =
      setup_schedules ++ setup_schedules := by
  exact ⟨by decide, by decide⟩

/-- C4: for every behaviour of the three stages, `full_sync` attempts the
stock-list stage, the daily-data stage and the indicator stage, in exactly
that order (the invocation trace is always the full three-element sequence,
whatever the stage outcomes, so an earlier failure never suppresses a later
stage), and each of the three reported outcomes is exactly the structured
outcome of its own stage run on the store state handed to it. -/
theorem full_sync_stage_isolation (σ : Type)
    (stockListOp dailyDataOp indicatorsOp : σ → σ × Except String Nat) (store : σ) :
    (full_sync σ stockListOp dailyDataOp indicatorsOp store).1.2 =
      ["sync_stock_list", "sync_daily_data", "sync_technical_indicators"] ∧
    (full_sync σ stockListOp dailyDataOp indicatorsOp store).2.1 =
      stage_outcome (stockListOp store).2 ∧
    (full_sync σ stockListOp dailyDataOp indicatorsOp store).2.2.1 =
      stage_outcome (dailyDataOp (stockListOp store).1).2 ∧
    (full_sync σ stockListOp dailyDataOp indicatorsOp store).2.2.2 =
      stage_outcome (indicatorsOp (dailyDataOp (stockListOp store).1).1).2 :=
  ⟨rfl, rfl, rfl, rfl⟩

/-- Helper: filtering a `filterMap` over `List.range` by first component,
when the produced pairs carry their input as first component. -/
theorem filterMap_range_filter_fst (g : Nat → Option (Nat × ℚ))
    (hg : ∀ j p, g j = some p → p.1 = j) (i : Nat) (n : Nat) :
    ((List.range n).filterMap g).filter (fun p => p.1 == i) =
      if i < n then ((g i).toList).filter (fun p => p.1 == i) else [] := by
  induction n with
  | zero => simp
  | succ m ih =>
    rw [List.range_succ, List.filterMap_append, List.filter_append, ih]
    rcases Nat.lt_trichotomy i m with him | rfl | him
    · rw [if_pos him, if_pos (Nat.lt_succ_of_lt him)]
      have h2 : ([m].filterMap g).filter (fun p => p.1 == i) = [] := by
        cases hgm : g m with
        | none => simp [hgm]
        | some p =>
          have hp := hg m p hgm
          simp [hgm, hp, Nat.ne_of_lt him, Ne.symm (Nat.ne_of_lt him)]
      rw [h2, List.append_nil]
    · rw [if_neg (Nat.lt_irrefl i), if_pos (Nat.lt_succ_self i), List.nil_append]
      cases hgm : g i <;> simp [hgm, Option.toList]
    · have h1 : ¬ i < m := Nat.not_lt.mpr (Nat.le_of_lt him)
      have h2 : ¬ i < m + 1 := Nat.not_lt.mpr (Nat.succ_le_of_lt him)
      rw [if_neg h1, if_neg h2, List.nil_append]
      cases hgm : g m with
      | none => simp [hgm]
      | some p =>
        have hp := hg m p hgm
        simp [hgm, hp, Nat.ne_of_lt him, Ne.symm (Nat.ne_of_lt him)]

/-- C9: for every period `n > 0` and every ordered close series, Moving
Average(n) emits nothing for a series shorter than n, emits no point at any
index below `n - 1`, and emits exactly one point — the arithmetic mean of the
trailing n closes — at every series index from `n - 1` on. -/
theorem moving_average_emission (period : Nat) (closes : List ℚ) (hp : 0 < period) :
    (closes.length < period → moving_average period closes = []) ∧
    (∀ i, i < period - 1 →
      (moving_average period closes).filter (fun p => p.1 == i) = []) ∧
    (∀ i, period - 1 ≤ i → i < closes.length →
      (moving_average period closes).filter (fun p => p.1 == i) =
        [(i, trailing_mean period closes i)]) := by
  have hg : ∀ j p, (if period ≤ j + 1 then
      some (j, trailing_mean period closes j) else none) = some p → p.1 = j := by
    intro j p h
    split at h
    · cases h; rfl
    · cases h
  refine ⟨?_, ?_, ?_⟩
  · intro hshort
    apply List.filterMap_eq_nil_iff.mpr
    intro a ha
    rw [List.mem_range] at ha
    have : ¬ period ≤ a + 1 := by omega
    simp [this]
  · intro i hi
    rw [moving_average, filterMap_range_filter_fst _ hg]
    split
    · have : ¬ period ≤ i + 1 := by omega
      simp [this]
    · rfl
  · intro i hi hilen
    rw [moving_average, filterMap_range_filter_fst _ hg, if_pos hilen]
    have : period ≤ i + 1 := by omega
    simp [this, Option.toList]

/-- C1: for every stored `daily_data` table satisfying the schema constraint
`uq_stock_date` and every list of daily-bar records, `batch_upsert` — an
existence check by the natural key followed by update-in-place or insert —
leaves no two rows sharing a (stock_code, trade_date) key, and running the
same `batch_upsert` a second time with the same records leaves the stored
table contents (rows, payloads, ids and the autoincrement counter) unchanged. -/
theorem batch_upsert_unique_and_idempotent (t : DailyTable) (l : List BarData)
    (h : KeysUnique t.rows) :
    KeysUnique (batch_upsert t l).rows ∧
    batch_upsert (batch_upsert t l) l = batch_upsert t l :=
  ⟨keysUnique_batch t l h, batch_upsert_replay l t h⟩

/-- Witness for `batch_upsert_unique_and_idempotent` on the empty table and a
three-record batch in which two records share one natural key. -/
theorem batch_upsert_unique_and_idempotent_witness :
    KeysUnique (DailyTable.mk [] 0).rows ∧
    (KeysUnique (batch_upsert (DailyTable.mk [] 0)
        [{ stock_code := "000001", trade_date := 1, open_price := 10, high_price := 11,
           low_price := 9, close_price := 10, volume := 100, amount := none },
         { stock_code := "000001", trade_date := 1, open_price := 10, high_price := 12,
           low_price := 9, close_price := 12, volume := 150, amount := some 1800 },
         { stock_code := "000002", trade_date := 1, open_price := 5, high_price := 6,
           low_price := 5, close_price := 6, volume := 80, amount := none }]).rows ∧
     batch_upsert (batch_upsert (DailyTable.mk [] 0)
        [{ stock_code := "000001", trade_date := 1, open_price := 10, high_price := 11,
           low_price := 9, close_price := 10, volume := 100, amount := none },
         { stock_code := "000001", trade_date := 1, open_price := 10, high_price := 12,
           low_price := 9, close_price := 12, volume := 150, amount := some 1800 },
         { stock_code := "000002", trade_date := 1, open_price := 5, high_price := 6,
           low_price := 5, close_price := 6, volume := 80, amount := none }])
        [{ stock_code := "000001", trade_date := 1, open_price := 10, high_price := 11,
           low_price := 9, close_price := 10, volume := 100, amount := none },
         { stock_code := "000001", trade_date := 1, open_price := 10, high_price := 12,
           low_price := 9, close_price := 12, volume := 150, amount := some 1800 },
         { stock_code := "000002", trade_date := 1, open_price := 5, high_price := 6,
           low_price := 5, close_price := 6, volume := 80, amount := none }] =
       batch_upsert (DailyTable.mk [] 0)
        [{ stock_code := "000001", trade_date := 1, open_price := 10, high_price := 11,
           low_price := 9, close_price := 10, volume := 100, amount := none },
         { stock_code := "000001", trade_date := 1, open_price := 10, high_price := 12,
           low_price := 9, close_price := 12, volume := 150, amount := some 1800 },
         { stock_code := "000002", trade_date := 1, open_price := 5, high_price := 6,
           low_price := 5, close_price := 6, volume := 80, amount := none }]) :=
  ⟨List.nodup_nil, batch_upsert_unique_and_idempotent _ _ List.nodup_nil⟩

/-- Witness for `moving_average_emission` at period 2 over the series
[1, 3, 5]. -/
theorem moving_average_emission_witness :
    0 < 2 ∧
    (((([1, 3, 5] : List ℚ)).length < 2 → moving_average 2 [1, 3, 5] = []) ∧
     (∀ i, i < 2 - 1 →
       (moving_average 2 ([1, 3, 5] : List ℚ)).filter (fun p => p.1 == i) = []) ∧
     (∀ i, 2 - 1 ≤ i → i < (([1, 3, 5] : List ℚ)).length →
       (moving_average 2 ([1, 3, 5] : List ℚ)).filter (fun p => p.1 == i) =
         [(i, trailing_mean 2 [1, 3, 5] i)])) :=
  ⟨by decide, moving_average_emission 2 [1, 3, 5] (by decide)⟩

end TrevanQuant
